import Mathlib

/-!
Verification of the vqm-philosophy-explorer layout core.

This file gives a shallow embedding, in Lean 4, of the algorithmic core of the
repository: the year parser (`parseYear`, `normalizeYear`, `denormalizeYear`
of `src/utils/yearParser.js`), the shared-concept connection builder
(`buildConstellations` of `src/utils/connectionBuilder.js`), the constellation
force layout (`computeStarPositions` and its helpers of
`src/utils/constellationLayout.js`) and the metro layout
(`computeMetroLayout` and its helpers of `src/utils/metroLayout.js`).

Modelling conventions:
- JavaScript numbers are modelled exactly: integer years as `Int`, the purely
  rational arithmetic of the year parser and of the metro layout as `Rat`,
  and the constellation engine (which calls the transcendental `Math.sin`
  and `Math.sqrt`) over `Real`.
- JavaScript `Array.prototype.sort` with a numeric comparator is a stable
  sort (ECMAScript 2019 and later); a stable sort for a total preorder has a
  unique result, so it is modelled by `List.insertionSort`, which inserts
  each element after all previously-seen elements with a key less than or
  equal to its own and is therefore stable.
- A JavaScript `Map` built by push-on-first-get has its keys in first
  occurrence order and accumulates values in push order; it is modelled by
  explicit key lists (`dedupFirst`) and per-key value lists.
- SVG path strings are modelled as lists of path commands carrying the same
  coordinates in the same order; the string produced by the source is the
  serialization of that command list.
-/

namespace PhilExplorer

/-! ## Characters and strings

Helper functions mirroring the pieces of JavaScript regular-expression and
string behaviour used by `parseYear`.  Whitespace is modelled as the ASCII
whitespace characters, the only ones occurring in the dataset.
-/

def isWs (c : Char) : Bool := c = ' ' ∨ c = '\t' ∨ c = '\n' ∨ c = '\r'

def isDigitCh (c : Char) : Bool := '0' ≤ c ∧ c ≤ '9'

def digitVal (c : Char) : Nat := c.toNat - '0'.toNat

def upChar (c : Char) : Char := c.toUpper

/-- `l.take n`, uppercased: the candidate era token at the front of `l`,
as compared case-insensitively by the regex. -/
def takeUp (n : Nat) (l : List Char) : List Char := (l.take n).map upChar

/-- The effect of `yearStr.replace(/c\.\s*/i, '')`: delete the first
occurrence (anywhere in the string) of `c` or `C` followed by `.`, together
with the whitespace run that follows it. -/
def stripCirca : List Char → List Char
  | [] => []
  | a :: '.' :: rest =>
      if a = 'c' ∨ a = 'C' then rest.dropWhile isWs
      else a :: stripCirca ('.' :: rest)
  | a :: rest => a :: stripCirca rest

/-- The effect of `String.prototype.trim`: drop whitespace from both ends. -/
def jsTrim (l : List Char) : List Char :=
  ((l.dropWhile isWs).reverse.dropWhile isWs).reverse

/-- First maximal run of digits in the string, together with the remainder
after the run; `none` when the string has no digit.  This is where the regex
`/(\d+)\s*(BC|AD|BCE|CE)?/i` anchors its match. -/
def firstRun : List Char → Option (List Char × List Char)
  | [] => none
  | c :: rest =>
      if isDigitCh c then some (c :: rest.takeWhile isDigitCh, rest.dropWhile isDigitCh)
      else firstRun rest

def natOfDigits (l : List Char) : Nat := l.foldl (fun n c => 10 * n + digitVal c) 0

/-- The era group `(BC|AD|BCE|CE)?` of the regex, tried at the position right
after the whitespace following the digit run.  Alternatives are tried left to
right exactly as written in the source, so the token `BCE` can never be the
match (its prefix `BC` wins first); the returned token is uppercased, as the
source uppercases `match[2]` before comparing. -/
def matchEra (l : List Char) : Option (List Char) :=
  if takeUp 2 l = ['B', 'C'] then some ['B', 'C']
  else if takeUp 2 l = ['A', 'D'] then some ['A', 'D']
  else if takeUp 3 l = ['B', 'C', 'E'] then some ['B', 'C', 'E']
  else if takeUp 2 l = ['C', 'E'] then some ['C', 'E']
  else none

/-- `era === 'BC' || era === 'BCE'` on the (uppercased) matched era token. -/
def eraNegates : Option (List Char) → Bool
  | some e => e = ['B', 'C'] ∨ e = ['B', 'C', 'E']
  | none => false

/-! ## Year parser (`src/utils/yearParser.js`) -/

/-- `parseYear` on the character list of the input string: strip the first
circa marker, trim, find the first digit run, and negate when the era token
is BC or BCE; `0` when no digit run exists. -/
def parseYearChars (l : List Char) : Int :=
  let cleaned := jsTrim (stripCirca l)
  match firstRun cleaned with
  | none => 0
  | some (digits, rest) =>
      let num : Int := natOfDigits digits
      if eraNegates (matchEra (rest.dropWhile isWs)) then -num else num

/-- `parseYear(yearStr)`.  Non-string and null inputs (which the source maps
to `0`) are outside the model; every model input is a string. -/
def parseYear (s : String) : Int := parseYearChars s.toList

/-- `normalizeYear(year, minYear = -600, maxYear = 1950)`: linear map of the
year onto the historical window, `0.5` when the window is degenerate. -/
def normalizeYear (year minYear maxYear : ℚ) : ℚ :=
  let range := maxYear - minYear
  if range = 0 then 1 / 2 else (year - minYear) / range

/-- `denormalizeYear(normalized, minYear = -600, maxYear = 1950)`.
JavaScript `Math.round` rounds half-integers toward positive infinity,
exactly as Mathlib's `round`. -/
def denormalizeYear (normalized minYear maxYear : ℚ) : ℤ :=
  let range := maxYear - minYear
  round (minYear + normalized * range)

/-! ## Claim-side variants for the year parser (C2)

`parseYearClaimC2` is modelled from the words of claim C2 (and section 4.1 of
the spec): it strips only a LEADING circa marker, and reads the era token in
the claim's token set with the longest token first.  `parseYearAmendC2` is
the amended description: the circa marker is stripped at its first occurrence
anywhere in the string, the rest as the claim says. -/

/-- Modelled from the claim: strip a leading `c.` marker (allowing leading
whitespace before it) and the whitespace around it; otherwise leave the
string unchanged. -/
def stripCircaLeadingC2 (l : List Char) : List Char :=
  match l.dropWhile isWs with
  | a :: '.' :: rest => if a = 'c' ∨ a = 'C' then rest.dropWhile isWs else l
  | _ => l

/-- Modelled from the claim: the era token is one of BCE, BC, AD, CE
(case-insensitive), reading the longest token that is present. -/
def matchEraClaim (l : List Char) : Option (List Char) :=
  if takeUp 3 l = ['B', 'C', 'E'] then some ['B', 'C', 'E']
  else if takeUp 2 l = ['B', 'C'] then some ['B', 'C']
  else if takeUp 2 l = ['A', 'D'] then some ['A', 'D']
  else if takeUp 2 l = ['C', 'E'] then some ['C', 'E']
  else none

/-- The claim's description of `parseYear`: strip a leading circa marker and
surrounding whitespace, match the first digit run, negate on era token BC or
BCE, `0` when no digit run is found. -/
def parseYearClaimC2 (s : String) : Int :=
  let cleaned := jsTrim (stripCircaLeadingC2 s.toList)
  match firstRun cleaned with
  | none => 0
  | some (digits, rest) =>
      let num : Int := natOfDigits digits
      if eraNegates (matchEraClaim (rest.dropWhile isWs)) then -num else num

/-- The amended description of `parseYear`: identical to the claim's except
that the circa marker is stripped at its first occurrence anywhere in the
string, not only at the front. -/
def parseYearAmendC2 (s : String) : Int :=
  let cleaned := jsTrim (stripCirca s.toList)
  match firstRun cleaned with
  | none => 0
  | some (digits, rest) =>
      let num : Int := natOfDigits digits
      if eraNegates (matchEraClaim (rest.dropWhile isWs)) then -num else num

/-! ## Data model

The fields of the dataset records that the layout core reads.  The remaining
dataset fields (summary, quotes, influenced_by, fullYear, ...) are never read
by the embedded functions and are omitted.  The untyped JavaScript `type`
field is a string that is empty exactly when the source's falsy
`philosopher.type || 'major'` fallback fires. -/

structure Entity where
  id : Nat
  title : String
  year : String
  era : String
  concepts : List String
  type : String
deriving DecidableEq

structure Concept where
  concept : String
  category : String
deriving DecidableEq

/-- A shared-concept connection.  The source's field names are `from` and
`to`; `from` is a Lean keyword, so the fields are named `fromId` and `toId`
here. -/
structure Connection where
  id : String
  concept : String
  category : String
  fromId : Nat
  toId : Nat
  fromTitle : String
  toTitle : String
deriving DecidableEq

/-- Keys of a JavaScript `Map` (or `Set` elements) in insertion order:
first occurrence of each element is kept. -/
def dedupFirst {α : Type} [DecidableEq α] : List α → List α
  | [] => []
  | a :: rest => a :: (dedupFirst rest).filter (fun b => b != a)

/-- The comparator `(a, b) => parseYear(a.year) - parseYear(b.year)`
as the total preorder it sorts by. -/
def byYearLE (a b : Entity) : Prop := parseYear a.year ≤ parseYear b.year

instance : DecidableRel byYearLE :=
  fun a b => inferInstanceAs (Decidable (parseYear a.year ≤ parseYear b.year))

instance : IsTotal Entity byYearLE := ⟨fun a b => le_total (parseYear a.year) (parseYear b.year)⟩

instance : IsTrans Entity byYearLE :=
  ⟨fun _ _ _ h1 h2 => le_trans h1 h2⟩

/-- `[...list].sort((a, b) => parseYear(a.year) - parseYear(b.year))`:
a stable sort by parsed year, ties kept in original order. -/
def sortByYear (l : List Entity) : List Entity := List.insertionSort byYearLE l

/-! ## Connection builder (`src/utils/connectionBuilder.js`) -/

/-- The entity list accumulated under key `c` of the grouping `Map` of
`buildConstellations`: each philosopher is pushed once per occurrence of `c`
in its concept list, in dataset order. -/
def conceptGroup (ps : List Entity) (c : String) : List Entity :=
  ps.flatMap fun p => (p.concepts.filter (fun d => d == c)).map (fun _ => p)

/-- The keys of the grouping `Map`, in insertion (first-occurrence) order. -/
def mapKeys (ps : List Entity) : List String :=
  dedupFirst (ps.flatMap (fun p => p.concepts))

/-- `conceptCategories.get(concept) || 'Unknown'`: the category of the last
concept record with this name (later `Map` entries overwrite earlier ones),
with the falsy empty string also falling back to `'Unknown'`. -/
def categoryOf (concepts : List Concept) (c : String) : String :=
  match concepts.reverse.find? (fun k => k.concept == c) with
  | none => "Unknown"
  | some k => if k.category = "" then "Unknown" else k.category

/-- One connection object as pushed by the inner loop of
`buildConstellations`. -/
def mkConn (c cat : String) (a b : Entity) : Connection :=
  { id := toString a.id ++ "-" ++ toString b.id ++ "-" ++ c,
    concept := c, category := cat,
    fromId := a.id, toId := b.id,
    fromTitle := a.title, toTitle := b.title }

/-- The `for (let i = 0; i < sorted.length - 1; i++)` loop: one edge per
consecutive pair of the (sorted) entity list. -/
def chainEdges (c cat : String) : List Entity → List Connection
  | a :: b :: rest => mkConn c cat a b :: chainEdges c cat (b :: rest)
  | _ => []

/-- `buildConstellations(philosophers, concepts)`: group philosophers by
concept, and for every concept owned by at least two of them emit the
chronological chain of edges over the group sorted by parsed year. -/
def buildConstellations (ps : List Entity) (concepts : List Concept) : List Connection :=
  (mapKeys ps).flatMap fun c =>
    if (conceptGroup ps c).length < 2 then []
    else chainEdges c (categoryOf concepts c) (sortByYear (conceptGroup ps c))

/-! ## Metro layout (`src/utils/metroLayout.js`) -/

structure MetroLineCfg where
  color : String
  label : String
  row : Nat
deriving DecidableEq

/-- `METRO_LINES`, as the ordered list of its object entries (declaration
order is the priority order of `getPrimaryLine`). -/
def METRO_LINES : List (String × MetroLineCfg) :=
  [("Metaphysics", { color := "#8b5cf6", label := "Metaphysics Line", row := 0 }),
   ("Ethics", { color := "#10b981", label := "Ethics Line", row := 1 }),
   ("Epistemology", { color := "#3b82f6", label := "Knowledge Line", row := 2 }),
   ("PoliticalPhilosophy", { color := "#ef4444", label := "Politics Line", row := 3 }),
   ("Logic", { color := "#f59e0b", label := "Logic Line", row := 4 }),
   ("Existentialism", { color := "#ec4899", label := "Existentialism Line", row := 5 }),
   ("Theology", { color := "#6366f1", label := "Theology Line", row := 6 })]

/-- `Object.keys(METRO_LINES)` in declaration order. -/
def metroKeys : List String := METRO_LINES.map (fun kv => kv.1)

/-- `METRO_LINES[c]` as an optional lookup. -/
def metroCfg (c : String) : Option MetroLineCfg :=
  (METRO_LINES.find? (fun kv => kv.1 == c)).map (fun kv => kv.2)

/-- The `for (const line of linePriority)` loop of `getPrimaryLine`,
returning the first key contained in the concept list, with the source's
`'Metaphysics'` fallback after the loop. -/
def firstLineOf (concepts : List String) : List String → String
  | [] => "Metaphysics"
  | k :: rest => if concepts.contains k then k else firstLineOf concepts rest

/-- `getPrimaryLine(philosopher)`. -/
def getPrimaryLine (p : Entity) : String := firstLineOf p.concepts metroKeys

/-- `getPhilosopherLines(philosopher)`: the concepts that are metro line
keys, in concept-list order. -/
def getPhilosopherLines (p : Entity) : List String :=
  p.concepts.filter (fun c => (metroCfg c).isSome)

/-- A metro station as built by `computeMetroLayout`. -/
structure Station where
  id : Nat
  philosopher : Entity
  x : ℚ
  y : ℚ
  primaryLine : String
  allLines : List String
  isInterchange : Bool
  type : String
  era : String
  year : ℤ
deriving DecidableEq

/-- The station construction loop of `computeMetroLayout`, with the fixed
paddings `{left: 120, right: 80, top: 100, bottom: 120}`.  The `none` branch
of the row lookup is unreachable: `getPrimaryLine` always returns a
`METRO_LINES` key. -/
def mkStations (ps : List Entity) (width height : ℚ) : List Station :=
  let usableWidth := width - 120 - 80
  let usableHeight := height - 100 - 120
  let lineSpacing := usableHeight / ((METRO_LINES.length : ℚ) + 1)
  (sortByYear ps).map fun p =>
    let year := parseYear p.year
    let x := 120 + normalizeYear (year : ℚ) (-600) 1950 * usableWidth
    let primaryLine := getPrimaryLine p
    let row : ℚ := match metroCfg primaryLine with
      | some cfg => (cfg.row : ℚ)
      | none => 0
    let baseY := 100 + (row + 1) * lineSpacing
    let allLines := getPhilosopherLines p
    { id := p.id, philosopher := p, x := x, y := baseY,
      primaryLine := primaryLine, allLines := allLines,
      isInterchange := decide (1 < allLines.length),
      type := if p.type = "" then "major" else p.type,
      era := p.era, year := year }

/-- Comparator `(a, b) => a.x - b.x` on index-tagged stations (tags recording
each station object's position in the input array, standing in for object
identity under the source's in-place mutation). -/
def byXTagged (a b : Nat × Station) : Prop := a.2.x ≤ b.2.x

instance : DecidableRel byXTagged :=
  fun a b => inferInstanceAs (Decidable (a.2.x ≤ b.2.x))

/-- Comparator `(a, b) => a.x - b.x` on stations. -/
def byX (a b : Station) : Prop := a.x ≤ b.x

instance : DecidableRel byX := fun a b => inferInstanceAs (Decidable (a.x ≤ b.x))

/-- The overlap loop of `resolveOverlaps` on one primary-line group sorted by
x: station `i ≥ 1` has 25 added to (or, at even `i`, subtracted from) its y
when its x is within 60 of station `i - 1`'s.  The x values are never
mutated, so each offset depends only on the sorted group and the index. -/
def groupShifted (g : List (Nat × Station)) : List (Nat × ℚ) :=
  g.enum.map fun ip =>
    match ip with
    | (i, (tag, s)) =>
        if i = 0 then (tag, s.y)
        else
          match g.get? (i - 1) with
          | some tp =>
              if s.x - tp.2.x < 60 then (tag, s.y + (if i % 2 = 0 then -25 else 25))
              else (tag, s.y)
          | none => (tag, s.y)

/-- `resolveOverlaps(stations)`: the source copies the array, groups the
(shared, mutated-in-place) station objects by primary line, sorts each group
by x and offsets the y of temporally-close neighbours; the returned array
keeps the original order with the updated y values. -/
def resolveOverlaps (sts : List Station) : List Station :=
  let tagged := sts.enum
  let lineKeys := dedupFirst (sts.map (fun s => s.primaryLine))
  let updates := lineKeys.flatMap fun line =>
    groupShifted (List.insertionSort byXTagged
      (tagged.filter (fun tp => tp.2.primaryLine == line)))
  tagged.map fun tp =>
    match updates.find? (fun u => u.1 == tp.1) with
    | some u => { tp.2 with y := u.2 }
    | none => tp.2

/-- A 2D point of the synthesized SVG path. -/
structure Pt where
  x : ℚ
  y : ℚ
deriving DecidableEq

/-- One SVG path command of the line path string: `M`, `L`, `Q` (control,
end) or `C` (control, control, end), carrying exactly the coordinates the
source interpolates into the string. -/
inductive PathCmd where
  | move : Pt → PathCmd
  | line : Pt → PathCmd
  | quad : Pt → Pt → PathCmd
  | cubic : Pt → Pt → Pt → PathCmd
deriving DecidableEq

/-- Path commands from the line's left anchor `(padLeft, baseY)` to the
first station: a straight `L` when the station sits on the base level, the
`L`–`Q`–`Q`–`L` curve otherwise. -/
def firstSegs (padLeft baseY : ℚ) (s1 : Station) : List PathCmd :=
  if s1.y = baseY then [PathCmd.line ⟨s1.x, baseY⟩]
  else
    [PathCmd.line ⟨(padLeft + s1.x) / 2 - 20, baseY⟩,
     PathCmd.quad ⟨(padLeft + s1.x) / 2, baseY⟩ ⟨(padLeft + s1.x) / 2, (baseY + s1.y) / 2⟩,
     PathCmd.quad ⟨(padLeft + s1.x) / 2, s1.y⟩ ⟨(padLeft + s1.x) / 2 + 20, s1.y⟩,
     PathCmd.line ⟨s1.x, s1.y⟩]

/-- Path commands through the remaining stations: a straight `L` between
same-level neighbours, the `L`–`C`–`L` s-curve otherwise. -/
def midSegs : Station → List Station → List PathCmd
  | _, [] => []
  | prev, curr :: rest =>
      (if prev.y = curr.y then [PathCmd.line ⟨curr.x, curr.y⟩]
       else
         [PathCmd.line ⟨(prev.x + curr.x) / 2 - 30, prev.y⟩,
          PathCmd.cubic ⟨(prev.x + curr.x) / 2, prev.y⟩ ⟨(prev.x + curr.x) / 2, curr.y⟩
            ⟨(prev.x + curr.x) / 2 + 30, curr.y⟩,
          PathCmd.line ⟨curr.x, curr.y⟩])
      ++ midSegs curr rest

/-- Path commands from the last station back to the base level and out to
the right anchor `padLeft + usableWidth + 40`. -/
def endSegs (padLeft usableWidth baseY : ℚ) (lastStation : Station) : List PathCmd :=
  (if lastStation.y = baseY then []
   else
     [PathCmd.line ⟨(lastStation.x + (padLeft + usableWidth)) / 2 - 20, lastStation.y⟩,
      PathCmd.quad ⟨(lastStation.x + (padLeft + usableWidth)) / 2, lastStation.y⟩
        ⟨(lastStation.x + (padLeft + usableWidth)) / 2, (baseY + lastStation.y) / 2⟩,
      PathCmd.quad ⟨(lastStation.x + (padLeft + usableWidth)) / 2, baseY⟩
        ⟨(lastStation.x + (padLeft + usableWidth)) / 2 + 20, baseY⟩])
  ++ [PathCmd.line ⟨padLeft + usableWidth + 40, baseY⟩]

/-- The full path of one metro line through its member stations (empty when
the line has none, as the source's empty path string). -/
def buildLinePath (padLeft usableWidth baseY : ℚ) : List Station → List PathCmd
  | [] => []
  | s1 :: rest =>
      PathCmd.move ⟨padLeft, baseY⟩ ::
        (firstSegs padLeft baseY s1 ++ midSegs s1 rest ++
          endSegs padLeft usableWidth baseY (rest.getLastD s1))

structure LineData where
  color : String
  label : String
  row : Nat
  concept : String
  stations : List Station
  path : List PathCmd
  baseY : ℚ
deriving DecidableEq

/-- The member stations of line `c`: stations whose `allLines` contains `c`,
stably sorted by x. -/
def lineStationsOf (sts : List Station) (c : String) : List Station :=
  List.insertionSort byX (sts.filter (fun s => s.allLines.contains c))

/-- `buildLineData(stations, padding, usableWidth, lineSpacing)` as the
ordered entry list of the returned object. -/
def buildLineData (sts : List Station) (padLeft padTop usableWidth lineSpacing : ℚ) :
    List (String × LineData) :=
  METRO_LINES.map fun kv =>
    let c := kv.1
    let cfg := kv.2
    let lineStations := lineStationsOf sts c
    let baseY := padTop + ((cfg.row : ℚ) + 1) * lineSpacing
    (c, { color := cfg.color, label := cfg.label, row := cfg.row, concept := c,
          stations := lineStations,
          path := buildLinePath padLeft usableWidth baseY lineStations,
          baseY := baseY })

structure Interchange where
  stationId : Nat
  lines : List String
  x : ℚ
  y : ℚ
deriving DecidableEq

/-- The `i < j` double loop of `buildInterchangeData` over a station's
line list. -/
def linePairs : List String → List (String × String)
  | [] => []
  | a :: rest => rest.map (fun b => (a, b)) ++ linePairs rest

/-- `buildInterchangeData(stations)`. -/
def buildInterchangeData (sts : List Station) : List Interchange :=
  (sts.filter (fun s => s.isInterchange)).flatMap fun s =>
    (linePairs s.allLines).map fun pr =>
      { stationId := s.id, lines := [pr.1, pr.2], x := s.x, y := s.y }

structure MetroLayout where
  stations : List Station
  lines : List (String × LineData)
  interchanges : List Interchange
  lineSpacing : ℚ

/-- `computeMetroLayout(philosophers, canvasSize)`. -/
def computeMetroLayout (ps : List Entity) (width height : ℚ) : MetroLayout :=
  let usableWidth := width - 120 - 80
  let usableHeight := height - 100 - 120
  let lineSpacing := usableHeight / ((METRO_LINES.length : ℚ) + 1)
  let resolvedStations := resolveOverlaps (mkStations ps width height)
  { stations := resolvedStations,
    lines := buildLineData resolvedStations 120 100 usableWidth lineSpacing,
    interchanges := buildInterchangeData resolvedStations,
    lineSpacing := lineSpacing }

/-- The x coordinates a path command mentions, left to right as written into
the path string. -/
def cmdXs : PathCmd → List ℚ
  | PathCmd.move p => [p.x]
  | PathCmd.line p => [p.x]
  | PathCmd.quad c p => [c.x, p.x]
  | PathCmd.cubic c1 c2 p => [c1.x, c2.x, p.x]

/-- All x coordinates of a path, in command order. -/
def pathXs (cmds : List PathCmd) : List ℚ := cmds.flatMap cmdXs

def isMove : PathCmd → Bool
  | PathCmd.move _ => true
  | _ => false

/-! ## Constellation layout (`src/utils/constellationLayout.js`)

The constellation engine calls `Math.sin` and `Math.sqrt`, so it is embedded
over the real numbers (its arithmetic is exact there; the definitions are
necessarily noncomputable).  Everything else about it is pure and
deterministic. -/

def ERA_MAPPING : List (String × String) :=
  [("Ancient & Classical Thought", "ancient"),
   ("Medieval & Renaissance Philosophy", "medieval"),
   ("The Age of Reason & Enlightenment", "enlightenment"),
   ("19th Century Philosophy", "19th"),
   ("Contemporary Thought", "contemporary")]

/-- `getEraKey(eraName)` with its `'ancient'` fallback. -/
def getEraKey (eraName : String) : String :=
  match ERA_MAPPING.find? (fun kv => kv.1 == eraName) with
  | some kv => kv.2
  | none => "ancient"

structure CanvasSize where
  width : ℝ
  height : ℝ

/-- A constellation position object `{id, x, y, philosopher, era, year,
concepts}`. -/
structure StarPos where
  id : Nat
  x : ℝ
  y : ℝ
  philosopher : Entity
  era : String
  year : ℤ
  concepts : List String

/-- `computeInitialPositions(philosophers, canvasSize)`: x from the
normalized year with edge padding 100, y from the deterministic
pseudo-random hash `(sin(id * 137.5) + 1) / 2` of the entity id. -/
noncomputable def computeInitialPositions (ps : List Entity) (canvasSize : CanvasSize) :
    List StarPos :=
  let padding : ℝ := 100
  ps.map fun p =>
    let year := parseYear p.year
    let normalizedX : ℚ := normalizeYear (year : ℚ) (-600) 1950
    let x : ℝ := padding + (normalizedX : ℝ) * (canvasSize.width - padding * 2)
    let seed : ℝ := (p.id : ℝ) * 137.5
    let pseudoRandom : ℝ := (Real.sin seed + 1) / 2
    let baseY : ℝ := canvasSize.height * 0.2 + pseudoRandom * canvasSize.height * 0.6
    { id := p.id, x := x, y := baseY, philosopher := p, era := getEraKey p.era,
      year := year, concepts := p.concepts }

/-- `buildConceptMap(philosophers)`: concept name to the ids of the
philosophers carrying it, keys in first-occurrence order, ids pushed in
dataset order (once per occurrence of the concept tag). -/
def buildConceptMap (ps : List Entity) : List (String × List Nat) :=
  (dedupFirst (ps.flatMap (fun p => p.concepts))).map fun c =>
    (c, ps.flatMap fun p => (p.concepts.filter (fun d => d == c)).map (fun _ => p.id))

/-- `conceptMap.get(concept) || []`. -/
def lookupConcept (conceptMap : List (String × List Nat)) (c : String) : List Nat :=
  match conceptMap.find? (fun kv => kv.1 == c) with
  | some kv => kv.2
  | none => []

/-- `new Map(positions.map(p => [p.id, p])).get(i)`: on duplicate ids the
later entry overwrites the earlier one, hence the lookup from the right. -/
noncomputable def posLookup (positions : List StarPos) (i : Nat) : Option StarPos :=
  positions.reverse.find? (fun q => q.id == i)

/-- The `sharedWith` set of `applyConceptGravity` for one position: ids
listed under the position's concepts, excluding its own id, in `Set`
insertion (first-occurrence) order. -/
def sharedWithOf (conceptMap : List (String × List Nat)) (pos : StarPos) : List Nat :=
  dedupFirst (pos.concepts.flatMap fun c =>
    (lookupConcept conceptMap c).filter (fun j => j != pos.id))

/-- `applyConceptGravity(positions, conceptMap, strength)`: move each
position's y a `strength` fraction toward the mean y of the found positions
of its concept-sharing neighbours; positions without such neighbours (or
with none found) are returned unchanged, and x is never touched. -/
noncomputable def applyConceptGravity (positions : List StarPos)
    (conceptMap : List (String × List Nat)) (strength : ℝ) : List StarPos :=
  positions.map fun pos =>
    let sharedWith := sharedWithOf conceptMap pos
    if sharedWith.isEmpty then pos
    else
      let found := sharedWith.filterMap (posLookup positions)
      if found.length = 0 then pos
      else
        let avgY := (found.map (fun q => q.y)).sum / (found.length : ℝ)
        { pos with y := pos.y + (avgY - pos.y) * strength }

/-- `applyRepulsion(positions, minDistance, strength)`: for every other
position closer than `minDistance`, accumulate a push-away displacement,
applied damped by 0.1 on x and in full on y. -/
noncomputable def applyRepulsion (positions : List StarPos) (minDistance strength : ℝ) :
    List StarPos :=
  positions.enum.map fun ip =>
    let i := ip.1
    let pos := ip.2
    let d := positions.enum.foldl
      (fun (acc : ℝ × ℝ) jq =>
        if i = jq.1 then acc
        else
          let distX := pos.x - jq.2.x
          let distY := pos.y - jq.2.y
          let distance := Real.sqrt (distX * distX + distY * distY)
          if distance < minDistance ∧ 0 < distance then
            let force := (minDistance - distance) / minDistance * strength
            (acc.1 + distX / distance * force * minDistance,
             acc.2 + distY / distance * force * minDistance)
          else acc)
      ((0 : ℝ), (0 : ℝ))
    { pos with x := pos.x + d.1 * 0.1, y := pos.y + d.2 }

/-- `applyBoundaryConstraints(positions, canvasSize, padding)`: clamp both
coordinates into `[padding, dimension - padding]`. -/
noncomputable def applyBoundaryConstraints (positions : List StarPos)
    (canvasSize : CanvasSize) (padding : ℝ) : List StarPos :=
  positions.map fun pos =>
    { pos with
      x := max padding (min (canvasSize.width - padding) pos.x),
      y := max padding (min (canvasSize.height - padding) pos.y) }

/-- One iteration of the simulation loop of `computeStarPositions`:
gravity, then repulsion, then the boundary clamp, with the decaying
strengths of iteration `i` of `iterations`. -/
noncomputable def starStep (canvasSize : CanvasSize) (conceptMap : List (String × List Nat))
    (iterations i : Nat) (positions : List StarPos) : List StarPos :=
  let iterationProgress : ℝ := (i : ℝ) / (iterations : ℝ)
  let gravityStrength : ℝ := 0.15 * (1 - iterationProgress * 0.5)
  let repulsionStrength : ℝ := 0.3 * (1 - iterationProgress * 0.3)
  applyBoundaryConstraints
    (applyRepulsion (applyConceptGravity positions conceptMap gravityStrength)
      80 repulsionStrength)
    canvasSize 60

/-- `computeStarPositions(philosophers, canvasSize, iterations = 15)`:
empty input gives an empty layout, otherwise the simulation loop is run
`iterations` times over the initial time-based scatter. -/
noncomputable def computeStarPositions (ps : List Entity) (canvasSize : CanvasSize)
    (iterations : Nat) : List StarPos :=
  if ps.isEmpty then []
  else
    (List.range iterations).foldl
      (fun positions i => starStep canvasSize (buildConceptMap ps) iterations i positions)
      (computeInitialPositions ps canvasSize)

/-! ## Concrete inputs used by witnesses and counterexamples -/

def eA : Entity :=
  { id := 1, title := "Thales", year := "c. 600 BC",
    era := "Ancient & Classical Thought", concepts := ["X"], type := "major" }

def eB : Entity :=
  { id := 2, title := "Plato", year := "c. 400 BC",
    era := "Ancient & Classical Thought", concepts := ["X", "Y"], type := "major" }

def eC : Entity :=
  { id := 3, title := "Descartes", year := "1637",
    era := "The Age of Reason & Enlightenment", concepts := ["Y"], type := "major" }

def eSolo : Entity :=
  { id := 1, title := "Solo", year := "1637",
    era := "The Age of Reason & Enlightenment", concepts := [], type := "major" }

def eLogicEthics : Entity :=
  { id := 4, title := "Mill", year := "1861",
    era := "19th Century Philosophy", concepts := ["Logic", "Ethics"], type := "major" }

def eNoLine : Entity :=
  { id := 5, title := "Montaigne", year := "1580",
    era := "Medieval & Renaissance Philosophy", concepts := ["Rationalism"], type := "major" }

def eMetaA : Entity :=
  { id := 11, title := "MetaA", year := "100",
    era := "Ancient & Classical Thought", concepts := ["Metaphysics"], type := "major" }

def eMetaB : Entity :=
  { id := 12, title := "MetaB", year := "400",
    era := "Ancient & Classical Thought", concepts := ["Metaphysics"], type := "major" }

def eMetaC : Entity :=
  { id := 13, title := "MetaC", year := "900",
    era := "Medieval & Renaissance Philosophy", concepts := ["Metaphysics"], type := "major" }

def eMetaD : Entity :=
  { id := 14, title := "MetaD", year := "1500",
    era := "Medieval & Renaissance Philosophy", concepts := ["Metaphysics"], type := "major" }

/-- A placeholder line record used only as the default of an `Option`
projection that is always `some` below. -/
def emptyLineData : LineData :=
  { color := "", label := "", row := 0, concept := "", stations := [],
    path := [], baseY := 0 }

/-- The metro layout of the counterexample input of C6: two stations of the
Metaphysics line 30 x-units apart on a 455 by 620 canvas, so that the
overlap resolution offsets the second station and the path curve doubles
back in x. -/
def metroCex : MetroLayout := computeMetroLayout [eMetaA, eMetaB] 455 620

def ldCex : LineData :=
  ((metroCex.lines.find? (fun kv => kv.1 == "Metaphysics")).map (fun kv => kv.2)).getD
    emptyLineData

/-- The metro layout of the witness input of C6: two stations of the
Metaphysics line 60 x-units apart, comfortably inside the horizontal span. -/
def metroWit : MetroLayout := computeMetroLayout [eMetaC, eMetaD] 455 620

def ldWit : LineData :=
  ((metroWit.lines.find? (fun kv => kv.1 == "Metaphysics")).map (fun kv => kv.2)).getD
    emptyLineData

/-- The two stations `computeMetroLayout` builds from `[eMetaA, eMetaB]` on
the 455 by 620 canvas (checked by evaluation below): 30 x-units apart. -/
def stC1 : Station :=
  { id := 11, philosopher := eMetaA, x := 190, y := 150,
    primaryLine := "Metaphysics", allLines := ["Metaphysics"],
    isInterchange := false, type := "major",
    era := "Ancient & Classical Thought", year := 100 }

def stC2 : Station :=
  { id := 12, philosopher := eMetaB, x := 220, y := 150,
    primaryLine := "Metaphysics", allLines := ["Metaphysics"],
    isInterchange := false, type := "major",
    era := "Ancient & Classical Thought", year := 400 }

/-- `stC2` after overlap resolution: 25 added to its y. -/
def stC2sh : Station :=
  { id := 12, philosopher := eMetaB, x := 220, y := 175,
    primaryLine := "Metaphysics", allLines := ["Metaphysics"],
    isInterchange := false, type := "major",
    era := "Ancient & Classical Thought", year := 400 }

/-- The two stations `computeMetroLayout` builds from `[eMetaC, eMetaD]` on
the 455 by 620 canvas: 60 x-units apart, so no overlap offset fires. -/
def stW1 : Station :=
  { id := 13, philosopher := eMetaC, x := 270, y := 150,
    primaryLine := "Metaphysics", allLines := ["Metaphysics"],
    isInterchange := false, type := "major",
    era := "Medieval & Renaissance Philosophy", year := 900 }

def stW2 : Station :=
  { id := 14, philosopher := eMetaD, x := 330, y := 150,
    primaryLine := "Metaphysics", allLines := ["Metaphysics"],
    isInterchange := false, type := "major",
    era := "Medieval & Renaissance Philosophy", year := 1500 }

/-- A position whose only concept is carried by no other entity, for the
gravity isolation witness. -/
noncomputable def gravPos : StarPos :=
  { id := 1, x := 3, y := 4, philosopher := eSolo, era := "enlightenment",
    year := 1637, concepts := ["X"] }

def gravMap : List (String × List Nat) := [("X", [1])]

/-! ## Theorems -/

theorem takeUp_two_of_three {l : List Char} (h : takeUp 3 l = ['B', 'C', 'E']) :
    takeUp 2 l = ['B', 'C'] := by
  have key : takeUp 2 l = (takeUp 3 l).take 2 := by
    simp [takeUp, List.take_take]
  rw [key, h]
  rfl

theorem eraNegates_matchEra_eq (l : List Char) :
    eraNegates (matchEra l) = eraNegates (matchEraClaim l) := by
  unfold matchEra matchEraClaim
  by_cases h3 : takeUp 3 l = ['B', 'C', 'E']
  · have h2 := takeUp_two_of_three h3
    simp [h2, h3, eraNegates]
  · by_cases h2 : takeUp 2 l = ['B', 'C']
    · simp [h2, h3, eraNegates]
    · by_cases hA : takeUp 2 l = ['A', 'D'] <;>
        by_cases hC : takeUp 2 l = ['C', 'E'] <;>
          simp [h2, h3, hA, hC, eraNegates]

/-- C2, counterexample.  The source's `replace(/c\.\s*/i, '')` removes the
first circa marker anywhere in the string, not only a leading one: on
`"1c. 2"` it fuses the digit runs `1` and `2` into `12`, while the claim's
description (strip only a leading marker, then take the first digit run)
yields `1`. -/
theorem parseYear_circa_cex :
    parseYear "1c. 2" = 12 ∧ parseYearClaimC2 "1c. 2" = 1 := by
  decide

/-- C2, amended: `parseYear` strips the first `c.` marker occurring anywhere
in the string (with the whitespace after it), matches the first run of
digits optionally followed by BC, BCE, AD or CE (case-insensitive), negates
on BC/BCE, and returns 0 when no digit run is found; in particular the four
documented examples hold. -/
theorem parseYear_amended_C2 :
    (∀ s : String, parseYear s = parseYearAmendC2 s)
    ∧ parseYear "c. 600 BC" = -600 ∧ parseYear "1637" = 1637
    ∧ parseYear "c. 400 AD" = 400 ∧ parseYear "garbage" = 0 := by
  refine ⟨fun s => ?_, by decide, by decide, by decide, by decide⟩
  unfold parseYear parseYearChars parseYearAmendC2 String.toList
  cases h : firstRun (jsTrim (stripCirca s.data)) with
  | none => simp [h]
  | some pr =>
      cases pr with
      | mk digits rest => simp [h, eraNegates_matchEra_eq]

/-- C8: over the default window `[-600, 1950]`, denormalizing a normalized
integer year recovers the year exactly, hence within the claimed tolerance
of one. -/
theorem denormalize_normalize_roundtrip (y : ℤ) (h1 : -600 ≤ y) (h2 : y ≤ 1950) :
    |denormalizeYear (normalizeYear (y : ℚ) (-600) 1950) (-600) 1950 - y| ≤ 1 := by
  have key : denormalizeYear (normalizeYear (y : ℚ) (-600) 1950) (-600) 1950 = y := by
    simp only [normalizeYear, denormalizeYear]
    norm_num
  rw [key]
  simp

theorem denormalize_normalize_roundtrip_witness :
    ((-600 : ℤ) ≤ 1637 ∧ (1637 : ℤ) ≤ 1950)
    ∧ |denormalizeYear (normalizeYear ((1637 : ℤ) : ℚ) (-600) 1950) (-600) 1950 - 1637| ≤ 1 :=
  ⟨⟨by decide, by decide⟩, denormalize_normalize_roundtrip 1637 (by decide) (by decide)⟩

/-- C9, counterexample: `normalizeYear` does not clamp, so a year beyond the
upper bound (2000 against the default window ending at 1950) maps outside
`[0, 1]`. -/
theorem normalizeYear_range_cex :
    ¬ (0 ≤ normalizeYear 2000 (-600) 1950 ∧ normalizeYear 2000 (-600) 1950 ≤ 1) := by
  simp only [normalizeYear]
  norm_num

/-- C9, amended: for every year lying between the two bounds,
`normalizeYear` returns a value in `[0, 1]`, and when the bounds coincide it
returns 0.5 instead of raising a division-by-zero error. -/
theorem normalizeYear_amended :
    (∀ year minYear maxYear : ℚ, minYear ≤ year → year ≤ maxYear →
        0 ≤ normalizeYear year minYear maxYear ∧ normalizeYear year minYear maxYear ≤ 1)
    ∧ (∀ year minYear : ℚ, normalizeYear year minYear minYear = 1 / 2) := by
  constructor
  · intro year minY maxY hy1 hy2
    simp only [normalizeYear]
    by_cases h : maxY - minY = 0
    · rw [if_pos h]; norm_num
    · have hpos : 0 < maxY - minY := lt_of_le_of_ne (by linarith) (Ne.symm h)
      rw [if_neg h]
      refine ⟨div_nonneg (by linarith) (le_of_lt hpos), ?_⟩
      rw [div_le_one hpos]
      linarith
  · intro year minY
    simp [normalizeYear]

theorem normalizeYear_amended_witness :
    ((-600 : ℚ) ≤ 1000 ∧ (1000 : ℚ) ≤ 1950)
    ∧ (0 ≤ normalizeYear 1000 (-600) 1950 ∧ normalizeYear 1000 (-600) 1950 ≤ 1) :=
  ⟨⟨by norm_num, by norm_num⟩,
    normalizeYear_amended.1 1000 (-600) 1950 (by norm_num) (by norm_num)⟩

/-- C4: `computeStarPositions` is deterministic — two calls with identical
entity list, canvas size and iteration count return exactly equal position
arrays.  The embedding is a pure function of its arguments: the source
performs no I/O and uses no unseeded randomness (its pseudo-randomness is
`Math.sin` of a function of the entity id, a pure function). -/
theorem computeStarPositions_deterministic (ps1 ps2 : List Entity)
    (c1 c2 : CanvasSize) (it1 it2 : Nat)
    (hp : ps1 = ps2) (hc : c1 = c2) (hi : it1 = it2) :
    computeStarPositions ps1 c1 it1 = computeStarPositions ps2 c2 it2 := by
  subst hp
  subst hc
  subst hi
  rfl

theorem computeStarPositions_deterministic_witness :
    computeStarPositions [eSolo] ⟨400, 300⟩ 15 = computeStarPositions [eSolo] ⟨400, 300⟩ 15 :=
  computeStarPositions_deterministic [eSolo] [eSolo] ⟨400, 300⟩ ⟨400, 300⟩ 15 15 rfl rfl rfl

theorem firstLineOf_eq (cs : List String) (keys : List String) :
    firstLineOf cs keys = (keys.find? (fun k => cs.contains k)).getD "Metaphysics" := by
  induction keys with
  | nil => rfl
  | cons k rest ih =>
      by_cases h : cs.contains k = true
      · rw [firstLineOf, if_pos h, List.find?_cons_of_pos _ h, Option.getD_some]
      · rw [firstLineOf, if_neg h, List.find?_cons_of_neg _ h, ih]

/-- C5: `getPrimaryLine` returns the first metro line in declaration order
whose key appears in the entity's concept list; the first-declared line is
`Metaphysics`, which is also the fallback when no concept matches; and an
entity with concepts Logic and Ethics (and no earlier-declared line) gets
`Ethics`, since Ethics is declared before Logic. -/
theorem getPrimaryLine_spec :
    (∀ p : Entity,
        getPrimaryLine p =
          (metroKeys.find? (fun k => p.concepts.contains k)).getD "Metaphysics")
    ∧ metroKeys.head? = some "Metaphysics"
    ∧ (∀ p : Entity, (∀ k ∈ metroKeys, p.concepts.contains k = false) →
        getPrimaryLine p = "Metaphysics")
    ∧ (∀ p : Entity, p.concepts = ["Logic", "Ethics"] → getPrimaryLine p = "Ethics") := by
  refine ⟨fun p => firstLineOf_eq _ _, by decide, fun p h => ?_, fun p h => ?_⟩
  · rw [getPrimaryLine, firstLineOf_eq]
    have hnone : metroKeys.find? (fun k => p.concepts.contains k) = none := by
      rw [List.find?_eq_none]
      intro k hk
      simpa using h k hk
    rw [hnone]
    rfl
  · rw [getPrimaryLine, h]
    decide

theorem getPrimaryLine_spec_witness :
    getPrimaryLine eNoLine = "Metaphysics" ∧ getPrimaryLine eLogicEthics = "Ethics" :=
  ⟨getPrimaryLine_spec.2.2.1 eNoLine (by decide),
    getPrimaryLine_spec.2.2.2 eLogicEthics (by decide)⟩

/-- C7: `applyConceptGravity` never changes any position's x (the array of
x coordinates is unchanged), and a position whose concepts relate it to no
other entity id in the concept map is returned entirely unchanged. -/
theorem applyConceptGravity_frame (positions : List StarPos)
    (conceptMap : List (String × List Nat)) (strength : ℝ) :
    ((applyConceptGravity positions conceptMap strength).map (fun q => q.x)
        = positions.map (fun q => q.x))
    ∧ ∀ i pos, positions.get? i = some pos →
        (∀ c ∈ pos.concepts, ∀ j ∈ lookupConcept conceptMap c, j = pos.id) →
        (applyConceptGravity positions conceptMap strength).get? i = some pos := by
  constructor
  · unfold applyConceptGravity
    rw [List.map_map]
    apply List.map_congr_left
    intro pos _
    by_cases h1 : sharedWithOf conceptMap pos = []
    · simp [h1]
    · by_cases h2 :
        ((sharedWithOf conceptMap pos).filterMap (posLookup positions)).length = 0 <;>
          simp [h1, h2]
  · intro i pos hget hiso
    unfold applyConceptGravity
    rw [List.get?_map, hget]
    have hsw : sharedWithOf conceptMap pos = [] := by
      unfold sharedWithOf
      have hfm : (pos.concepts.flatMap fun c =>
          (lookupConcept conceptMap c).filter (fun j => j != pos.id)) = [] := by
        rw [List.flatMap_eq_nil_iff]
        intro c hc
        rw [List.filter_eq_nil_iff]
        intro j hj
        simp [hiso c hc j hj]
      rw [hfm]
      rfl
    simp [hsw]

theorem applyConceptGravity_frame_witness :
    [gravPos].get? 0 = some gravPos
    ∧ (applyConceptGravity [gravPos] gravMap (1 / 2)).get? 0 = some gravPos := by
  refine ⟨rfl, (applyConceptGravity_frame [gravPos] gravMap (1 / 2)).2 0 gravPos rfl ?_⟩
  intro c hc j hj
  have hc2 : c = "X" := by
    have : gravPos.concepts = ["X"] := rfl
    rw [this] at hc
    simpa using hc
  subst hc2
  have : lookupConcept gravMap "X" = [1] := rfl
  rw [this] at hj
  have hj2 : j = 1 := by simpa using hj
  rw [hj2]
  rfl

theorem applyBoundaryConstraints_bounds (l : List StarPos) (canvasSize : CanvasSize)
    (hw : 120 ≤ canvasSize.width) (hh : 120 ≤ canvasSize.height) :
    ∀ p ∈ applyBoundaryConstraints l canvasSize 60,
      60 ≤ p.x ∧ p.x ≤ canvasSize.width - 60 ∧ 60 ≤ p.y ∧ p.y ≤ canvasSize.height - 60 := by
  intro p hp
  unfold applyBoundaryConstraints at hp
  rw [List.mem_map] at hp
  obtain ⟨q, -, rfl⟩ := hp
  refine ⟨le_max_left _ _, ?_, le_max_left _ _, ?_⟩
  · exact max_le (by linarith) (min_le_left _ _)
  · exact max_le (by linarith) (min_le_left _ _)

/-- C3, counterexample.  With zero iterations `computeStarPositions` returns
the unclamped initial scatter, and on a 100-high canvas the claimed band
`[60, 40]` for y is empty, so the single returned position violates the
boundary invariant whatever its (sine-based) y is. -/
theorem computeStarPositions_bounds_cex :
    ¬ (∀ p ∈ computeStarPositions [eSolo] ⟨400, 100⟩ 0,
        60 ≤ p.x ∧ p.x ≤ 400 - 60 ∧ 60 ≤ p.y ∧ p.y ≤ 100 - 60) := by
  intro h
  have h0 : computeStarPositions [eSolo] ⟨400, 100⟩ 0
      = computeInitialPositions [eSolo] ⟨400, 100⟩ := rfl
  rw [h0] at h
  have hx : computeInitialPositions [eSolo] ⟨400, 100⟩ ≠ [] := by
    unfold computeInitialPositions
    simp
  obtain ⟨p0, hp0⟩ := List.exists_mem_of_ne_nil _ hx
  obtain ⟨-, -, h3, h4⟩ := h p0 hp0
  linarith

/-- C3, amended: for every non-empty entity list, every canvas at least 120
wide and 120 high (twice the clamp padding 60), and at least one iteration,
every position returned by `computeStarPositions` lies within
`[60, dimension - 60]` on both axes — the final operation of the last
iteration is the boundary clamp. -/
theorem computeStarPositions_bounds (ps : List Entity) (canvasSize : CanvasSize)
    (iterations : Nat) (h0 : ps ≠ []) (h1 : 1 ≤ iterations)
    (hw : 120 ≤ canvasSize.width) (hh : 120 ≤ canvasSize.height) :
    ∀ p ∈ computeStarPositions ps canvasSize iterations,
      60 ≤ p.x ∧ p.x ≤ canvasSize.width - 60 ∧ 60 ≤ p.y ∧ p.y ≤ canvasSize.height - 60 := by
  intro p hp
  obtain ⟨n, rfl⟩ : ∃ n, iterations = n + 1 :=
    ⟨iterations - 1, (Nat.succ_pred_eq_of_pos h1).symm⟩
  unfold computeStarPositions at hp
  rw [if_neg (by simpa using h0)] at hp
  rw [List.range_succ, List.foldl_append, List.foldl_cons, List.foldl_nil] at hp
  unfold starStep at hp
  exact applyBoundaryConstraints_bounds _ _ hw hh p hp

theorem computeStarPositions_bounds_witness :
    (([eSolo] : List Entity) ≠ [] ∧ (120 : ℝ) ≤ 400 ∧ (120 : ℝ) ≤ 300)
    ∧ ∀ p ∈ computeStarPositions [eSolo] ⟨400, 300⟩ 1,
        60 ≤ p.x ∧ p.x ≤ 400 - 60 ∧ 60 ≤ p.y ∧ p.y ≤ 300 - 60 :=
  ⟨⟨by simp, by norm_num, by norm_num⟩,
    computeStarPositions_bounds [eSolo] ⟨400, 300⟩ 1 (by simp) (le_refl 1)
      (by norm_num) (by norm_num)⟩

theorem mem_dedupFirst {α : Type} [DecidableEq α] (a : α) (l : List α) :
    a ∈ dedupFirst l ↔ a ∈ l := by
  induction l with
  | nil => simp [dedupFirst]
  | cons b rest ih =>
      simp only [dedupFirst, List.mem_cons, List.mem_filter, ih, bne_iff_ne]
      by_cases hab : a = b
      · simp [hab]
      · simp [hab]

theorem nodup_dedupFirst {α : Type} [DecidableEq α] (l : List α) :
    (dedupFirst l).Nodup := by
  induction l with
  | nil => simp [dedupFirst]
  | cons b rest ih =>
      rw [dedupFirst, List.nodup_cons]
      refine ⟨fun hmem => ?_, ih.filter _⟩
      have := (List.mem_filter.mp hmem).2
      simp at this

theorem chainEdges_concept (c cat : String) :
    ∀ (l : List Entity), ∀ e ∈ chainEdges c cat l, e.concept = c := by
  intro l
  induction l with
  | nil => intro e he; simp [chainEdges] at he
  | cons a rest ih =>
      cases rest with
      | nil => intro e he; simp [chainEdges] at he
      | cons b t =>
          intro e he
          rw [chainEdges] at he
          rcases List.mem_cons.mp he with rfl | he2
          · rfl
          · exact ih e he2

theorem chainEdges_length (c cat : String) :
    ∀ (l : List Entity), (chainEdges c cat l).length = l.length - 1 := by
  intro l
  induction l with
  | nil => rfl
  | cons a rest ih =>
      cases rest with
      | nil => rfl
      | cons b t =>
          rw [chainEdges, List.length_cons, ih]
          simp

theorem chainEdges_get? (c cat : String) :
    ∀ (l : List Entity) (i : Nat) (a b : Entity),
      l.get? i = some a → l.get? (i + 1) = some b →
      (chainEdges c cat l).get? i = some (mkConn c cat a b) := by
  intro l
  induction l with
  | nil => intro i a b ha _; simp at ha
  | cons x rest ih =>
      intro i a b ha hb
      cases rest with
      | nil => simp at hb
      | cons y t =>
          cases i with
          | zero =>
              have hxa : x = a := by simpa using ha
              have hyb : y = b := by simpa using hb
              subst hxa
              subst hyb
              rfl
          | succ j =>
              have ha2 : (y :: t).get? j = some a := by simpa using ha
              have hb2 : (y :: t).get? (j + 1) = some b := by simpa using hb
              have := ih j a b ha2 hb2
              simpa [chainEdges] using this

theorem filter_flatMap_concept (keys : List String) (F : String → List Connection) (c : String)
    (hnd : keys.Nodup) (hc : c ∈ keys)
    (hall : ∀ c2, ∀ e ∈ F c2, e.concept = c2) :
    (keys.flatMap F).filter (fun e => e.concept == c) = F c := by
  induction keys with
  | nil => simp at hc
  | cons k ks ih =>
      rw [List.flatMap_cons, List.filter_append]
      rcases List.mem_cons.mp hc with rfl | hc2
      · have hFk : (F c).filter (fun e => e.concept == c) = F c :=
          List.filter_eq_self.mpr (fun e he => by simp [hall c e he])
        have hks : (ks.flatMap F).filter (fun e => e.concept == c) = [] := by
          rw [List.filter_eq_nil_iff]
          intro e he
          rw [List.mem_flatMap] at he
          obtain ⟨c2, hc2k, he2⟩ := he
          have hne : c2 ≠ c := fun h => (List.nodup_cons.mp hnd).1 (h ▸ hc2k)
          simp [hall c2 e he2, hne]
        rw [hFk, hks, List.append_nil]
      · have hkne : k ≠ c := fun hkc => (List.nodup_cons.mp hnd).1 (hkc ▸ hc2)
        have hFk : (F k).filter (fun e => e.concept == c) = [] := by
          rw [List.filter_eq_nil_iff]
          intro e he
          simp [hall k e he, hkne]
        rw [hFk, List.nil_append, ih (List.nodup_cons.mp hnd).2 hc2]

theorem filter_beq_of_nodup {l : List String} (hnd : l.Nodup) (c : String) :
    l.filter (fun d => d == c) = if c ∈ l then [c] else [] := by
  induction l with
  | nil => simp
  | cons a rest ih =>
      rw [List.filter_cons]
      by_cases hac : a = c
      · subst hac
        have hnotin : a ∉ rest := (List.nodup_cons.mp hnd).1
        rw [ih (List.nodup_cons.mp hnd).2]
        simp [hnotin]
      · rw [ih (List.nodup_cons.mp hnd).2]
        simp [hac, Ne.symm hac]

theorem conceptGroup_eq_filter (ps : List Entity) (c : String)
    (hdedup : ∀ p ∈ ps, p.concepts.Nodup) :
    conceptGroup ps c = ps.filter (fun p => p.concepts.contains c) := by
  induction ps with
  | nil => rfl
  | cons p rest ih =>
      have h1 := filter_beq_of_nodup (hdedup p (by simp)) c
      have ih2 := ih (fun q hq => hdedup q (by simp [hq]))
      rw [conceptGroup, List.flatMap_cons, List.filter_cons]
      by_cases hc : c ∈ p.concepts
      · rw [h1, if_pos hc]
        simp only [List.map_cons, List.map_nil, List.singleton_append]
        rw [if_pos (by simpa using hc)]
        rw [← ih2]
        rfl
      · rw [h1, if_neg hc]
        simp only [List.map_nil, List.nil_append]
        rw [if_neg (by simpa using hc)]
        rw [← ih2]
        rfl

theorem sorted_get?_le {l : List Entity} (hs : List.Sorted byYearLE l) {i : Nat}
    {a b : Entity} (ha : l.get? i = some a) (hb : l.get? (i + 1) = some b) :
    parseYear a.year ≤ parseYear b.year := by
  obtain ⟨hia, ha2⟩ := List.get?_eq_some.mp ha
  obtain ⟨hib, hb2⟩ := List.get?_eq_some.mp hb
  have hrel := List.pairwise_iff_get.mp hs ⟨i, hia⟩ ⟨i + 1, hib⟩
    (by simp [Fin.lt_def])
  rw [ha2, hb2] at hrel
  exact hrel

/-- C1: for every concept owned (after per-entity dedup) by `N ≥ 2`
entities, `buildConstellations` emits exactly `N - 1` edges for that
concept, the `i`-th of which runs from the entity at position `i` to the
entity at position `i + 1` of the concept's owner list stably sorted by
parsed year, the `from` end being the chronologically earlier (or equal)
one. -/
theorem buildConstellations_chain_edges (ps : List Entity) (concepts : List Concept)
    (c : String)
    (hdedup : ∀ p ∈ ps, p.concepts.Nodup)
    (hN : 2 ≤ (ps.filter (fun p => p.concepts.contains c)).length) :
    ((buildConstellations ps concepts).filter (fun e => e.concept == c)).length
        = (ps.filter (fun p => p.concepts.contains c)).length - 1
    ∧ (sortByYear (ps.filter (fun p => p.concepts.contains c))).length
        = (ps.filter (fun p => p.concepts.contains c)).length
    ∧ ∀ i e a b,
        ((buildConstellations ps concepts).filter (fun e => e.concept == c)).get? i
            = some e →
        (sortByYear (ps.filter (fun p => p.concepts.contains c))).get? i = some a →
        (sortByYear (ps.filter (fun p => p.concepts.contains c))).get? (i + 1) = some b →
        e.fromId = a.id ∧ e.toId = b.id ∧ parseYear a.year ≤ parseYear b.year := by
  have hgrp : conceptGroup ps c = ps.filter (fun p => p.concepts.contains c) :=
    conceptGroup_eq_filter ps c hdedup
  have hcmem : c ∈ mapKeys ps := by
    have hne : ps.filter (fun p => p.concepts.contains c) ≠ [] := by
      intro hnil
      rw [hnil] at hN
      simp at hN
    obtain ⟨p, hp⟩ := List.exists_mem_of_ne_nil _ hne
    have hp2 := List.mem_filter.mp hp
    rw [mapKeys, mem_dedupFirst]
    exact List.mem_flatMap.mpr ⟨p, hp2.1, by simpa using hp2.2⟩
  have hkeys_eq : (buildConstellations ps concepts).filter (fun e => e.concept == c)
      = chainEdges c (categoryOf concepts c)
          (sortByYear (ps.filter (fun p => p.concepts.contains c))) := by
    unfold buildConstellations
    rw [filter_flatMap_concept (mapKeys ps) _ c (nodup_dedupFirst _) hcmem ?hall]
    · rw [hgrp, if_neg (by omega)]
    case hall =>
      intro c2 e he
      by_cases hlt : (conceptGroup ps c2).length < 2
      · rw [if_pos hlt] at he
        simp at he
      · rw [if_neg hlt] at he
        exact chainEdges_concept _ _ _ e he
  have hlen_sort :
      (sortByYear (ps.filter (fun p => p.concepts.contains c))).length
        = (ps.filter (fun p => p.concepts.contains c)).length :=
    (List.perm_insertionSort _ _).length_eq
  refine ⟨?_, hlen_sort, ?_⟩
  · rw [hkeys_eq, chainEdges_length, hlen_sort]
  · intro i e a b he ha hb
    rw [hkeys_eq] at he
    have hce := chainEdges_get? c (categoryOf concepts c) _ i a b ha hb
    rw [hce] at he
    obtain rfl := Option.some.inj he
    exact ⟨rfl, rfl, sorted_get?_le (List.sorted_insertionSort _ _) ha hb⟩

theorem buildConstellations_chain_edges_witness :
    ((∀ p ∈ [eA, eB, eC], p.concepts.Nodup)
        ∧ 2 ≤ ([eA, eB, eC].filter (fun p => p.concepts.contains "X")).length)
    ∧ ((buildConstellations [eA, eB, eC] []).filter (fun e => e.concept == "X")).length
        = ([eA, eB, eC].filter (fun p => p.concepts.contains "X")).length - 1 :=
  ⟨⟨by decide, by decide⟩,
    (buildConstellations_chain_edges [eA, eB, eC] [] "X" (by decide) (by decide)).1⟩

theorem chainEdges_from_ne_to (c cat : String) :
    ∀ (l : List Entity), (l.map (fun p => p.id)).Nodup →
      ∀ e ∈ chainEdges c cat l, e.fromId ≠ e.toId := by
  intro l
  induction l with
  | nil => intro _ e he; simp [chainEdges] at he
  | cons a rest ih =>
      cases rest with
      | nil => intro _ e he; simp [chainEdges] at he
      | cons b t =>
          intro hnd e he
          have hnd2 : (a.id :: b.id :: t.map (fun p => p.id)).Nodup := by
            simpa using hnd
          rw [chainEdges] at he
          rcases List.mem_cons.mp he with rfl | he2
          · intro hEq
            have hEq2 : a.id = b.id := hEq
            exact (List.nodup_cons.mp hnd2).1
              (by rw [hEq2]; exact List.mem_cons_self _ _)
          · exact ih (by simpa using (List.nodup_cons.mp hnd2).2) e he2

/-- C10: when no entity's concept list repeats a tag and entity ids are
unique (the dataset invariant), every connection of `buildConstellations`
joins two distinct entities: its `from` id differs from its `to` id. -/
theorem buildConstellations_no_self_edge (ps : List Entity) (concepts : List Concept)
    (hdedup : ∀ p ∈ ps, p.concepts.Nodup)
    (hids : (ps.map (fun p => p.id)).Nodup) :
    ∀ e ∈ buildConstellations ps concepts, e.fromId ≠ e.toId := by
  intro e he
  unfold buildConstellations at he
  rw [List.mem_flatMap] at he
  obtain ⟨c, -, he2⟩ := he
  by_cases hlt : (conceptGroup ps c).length < 2
  · rw [if_pos hlt] at he2
    simp at he2
  · rw [if_neg hlt] at he2
    have hgrp : conceptGroup ps c = ps.filter (fun p => p.concepts.contains c) :=
      conceptGroup_eq_filter ps c hdedup
    have hsub : (conceptGroup ps c).Sublist ps := by
      rw [hgrp]
      exact List.filter_sublist ps
    have hnodup1 : ((conceptGroup ps c).map (fun p => p.id)).Nodup :=
      hids.sublist (hsub.map _)
    have hperm : List.Perm (sortByYear (conceptGroup ps c)) (conceptGroup ps c) :=
      List.perm_insertionSort _ _
    have hnodup : ((sortByYear (conceptGroup ps c)).map (fun p => p.id)).Nodup :=
      ((hperm.map _).nodup_iff).mpr hnodup1
    exact chainEdges_from_ne_to _ _ _ hnodup e he2

theorem buildConstellations_no_self_edge_witness :
    ((∀ p ∈ [eA, eB, eC], p.concepts.Nodup)
        ∧ ([eA, eB, eC].map (fun p => p.id)).Nodup)
    ∧ ∀ e ∈ buildConstellations [eA, eB, eC] [], e.fromId ≠ e.toId :=
  ⟨⟨by decide, by decide⟩,
    buildConstellations_no_self_edge [eA, eB, eC] [] (by decide) (by decide)⟩

theorem pathXs_append (l1 l2 : List PathCmd) : pathXs (l1 ++ l2) = pathXs l1 ++ pathXs l2 := by
  simp [pathXs]

theorem getLast?_cons_getLastD {α : Type} (a : α) (l : List α) :
    (a :: l).getLast? = some (l.getLastD a) := by
  induction l generalizing a with
  | nil => rfl
  | cons b t ih => rw [List.getLast?_cons_cons, List.getLastD_cons]; exact ih b

theorem chain_glue_last {l1 l2 : List ℚ} {a m z : ℚ}
    (h1 : List.Chain' (fun x y => x ≤ y) (a :: l1))
    (hl1 : (a :: l1).getLast? = some m)
    (h2 : List.Chain' (fun x y => x ≤ y) (m :: l2))
    (hl2 : (m :: l2).getLast? = some z) :
    List.Chain' (fun x y => x ≤ y) (a :: (l1 ++ l2))
    ∧ (a :: (l1 ++ l2)).getLast? = some z := by
  induction l1 generalizing a with
  | nil =>
      have ham : a = m := by simpa using hl1
      subst ham
      exact ⟨h2, hl2⟩
  | cons x t ih =>
      rw [List.chain'_cons] at h1
      rw [List.getLast?_cons_cons] at hl1
      obtain ⟨hc, hl⟩ := ih h1.2 hl1
      refine ⟨?_, ?_⟩
      · rw [List.cons_append, List.chain'_cons]
        exact ⟨h1.1, hc⟩
      · rw [List.cons_append, List.getLast?_cons_cons]
        exact hl

theorem firstSegs_noMove (padLeft baseY : ℚ) (s1 : Station) :
    ∀ cmd ∈ firstSegs padLeft baseY s1, isMove cmd = false := by
  intro cmd hcmd
  unfold firstSegs at hcmd
  by_cases hy : s1.y = baseY
  · rw [if_pos hy] at hcmd
    simp at hcmd
    subst hcmd
    rfl
  · rw [if_neg hy] at hcmd
    simp at hcmd
    rcases hcmd with rfl | rfl | rfl | rfl <;> rfl

theorem firstSegs_last (padLeft baseY x0 : ℚ) (s1 : Station) :
    (x0 :: pathXs (firstSegs padLeft baseY s1)).getLast? = some s1.x := by
  unfold firstSegs
  by_cases hy : s1.y = baseY <;> simp [hy, pathXs, cmdXs]

theorem firstSegs_chain (padLeft baseY : ℚ) (s1 : Station) (h : padLeft + 40 ≤ s1.x) :
    List.Chain' (fun x y => x ≤ y) (padLeft :: pathXs (firstSegs padLeft baseY s1)) := by
  unfold firstSegs
  by_cases hy : s1.y = baseY
  · rw [if_pos hy]
    simp [pathXs, cmdXs, List.chain'_cons]
    linarith
  · rw [if_neg hy]
    simp [pathXs, cmdXs, List.chain'_cons]
    constructor <;> linarith


theorem midSegs_noMove : ∀ (rest : List Station) (prev : Station),
    ∀ cmd ∈ midSegs prev rest, isMove cmd = false := by
  intro rest
  induction rest with
  | nil => intro prev cmd h; simp [midSegs] at h
  | cons curr t ih =>
      intro prev cmd h
      rw [midSegs] at h
      rcases List.mem_append.mp h with h1 | h2
      · by_cases hy : prev.y = curr.y
        · rw [if_pos hy] at h1
          simp at h1
          subst h1
          rfl
        · rw [if_neg hy] at h1
          simp at h1
          rcases h1 with rfl | rfl | rfl <;> rfl
      · exact ih curr cmd h2

theorem midSegs_last : ∀ (rest : List Station) (prev : Station),
    (prev.x :: pathXs (midSegs prev rest)).getLast? = some ((rest.getLastD prev).x) := by
  intro rest
  induction rest with
  | nil => intro prev; simp [midSegs, pathXs]
  | cons curr t ih =>
      intro prev
      rw [midSegs, List.getLastD_cons, pathXs_append]
      by_cases hy : prev.y = curr.y
      · rw [if_pos hy]
        have hseg : pathXs [PathCmd.line ⟨curr.x, curr.y⟩] = [curr.x] := rfl
        rw [hseg, List.singleton_append, List.getLast?_cons_cons]
        exact ih curr
      · rw [if_neg hy]
        have hseg : pathXs
            [PathCmd.line ⟨(prev.x + curr.x) / 2 - 30, prev.y⟩,
             PathCmd.cubic ⟨(prev.x + curr.x) / 2, prev.y⟩ ⟨(prev.x + curr.x) / 2, curr.y⟩
               ⟨(prev.x + curr.x) / 2 + 30, curr.y⟩,
             PathCmd.line ⟨curr.x, curr.y⟩]
            = [(prev.x + curr.x) / 2 - 30, (prev.x + curr.x) / 2, (prev.x + curr.x) / 2,
               (prev.x + curr.x) / 2 + 30, curr.x] := rfl
        rw [hseg, List.cons_append, List.cons_append, List.cons_append, List.cons_append,
          List.singleton_append, List.getLast?_cons_cons, List.getLast?_cons_cons,
          List.getLast?_cons_cons, List.getLast?_cons_cons, List.getLast?_cons_cons]
        exact ih curr

theorem midSegs_chain : ∀ (rest : List Station) (prev : Station),
    List.Chain' (fun a b : Station => a.x + 60 ≤ b.x) (prev :: rest) →
    List.Chain' (fun x y => x ≤ y) (prev.x :: pathXs (midSegs prev rest)) := by
  intro rest
  induction rest with
  | nil => intro prev _; simp [midSegs, pathXs]
  | cons curr t ih =>
      intro prev h
      rw [List.chain'_cons] at h
      have hrec := ih curr h.2
      rw [midSegs, pathXs_append]
      by_cases hy : prev.y = curr.y
      · rw [if_pos hy]
        have hseg : pathXs [PathCmd.line ⟨curr.x, curr.y⟩] = [curr.x] := rfl
        rw [hseg, List.singleton_append, List.chain'_cons]
        exact ⟨by linarith [h.1], hrec⟩
      · rw [if_neg hy]
        have hseg : pathXs
            [PathCmd.line ⟨(prev.x + curr.x) / 2 - 30, prev.y⟩,
             PathCmd.cubic ⟨(prev.x + curr.x) / 2, prev.y⟩ ⟨(prev.x + curr.x) / 2, curr.y⟩
               ⟨(prev.x + curr.x) / 2 + 30, curr.y⟩,
             PathCmd.line ⟨curr.x, curr.y⟩]
            = [(prev.x + curr.x) / 2 - 30, (prev.x + curr.x) / 2, (prev.x + curr.x) / 2,
               (prev.x + curr.x) / 2 + 30, curr.x] := rfl
        rw [hseg, List.cons_append, List.cons_append, List.cons_append, List.cons_append,
          List.singleton_append, List.chain'_cons, List.chain'_cons, List.chain'_cons,
          List.chain'_cons, List.chain'_cons]
        refine ⟨by linarith [h.1], by linarith, by linarith, by linarith, by linarith [h.1], hrec⟩

theorem endSegs_noMove (padLeft usableWidth baseY : ℚ) (sk : Station) :
    ∀ cmd ∈ endSegs padLeft usableWidth baseY sk, isMove cmd = false := by
  intro cmd hcmd
  unfold endSegs at hcmd
  rcases List.mem_append.mp hcmd with h1 | h2
  · by_cases hy : sk.y = baseY
    · rw [if_pos hy] at h1
      simp at h1
    · rw [if_neg hy] at h1
      simp at h1
      rcases h1 with rfl | rfl | rfl <;> rfl
  · simp at h2
    subst h2
    rfl

theorem endSegs_last (padLeft usableWidth baseY x0 : ℚ) (sk : Station) :
    (x0 :: pathXs (endSegs padLeft usableWidth baseY sk)).getLast?
      = some (padLeft + usableWidth + 40) := by
  unfold endSegs
  by_cases hy : sk.y = baseY <;> simp [hy, pathXs, cmdXs]

theorem endSegs_chain (padLeft usableWidth baseY : ℚ) (sk : Station)
    (h : sk.x ≤ padLeft + usableWidth - 40) :
    List.Chain' (fun x y => x ≤ y) (sk.x :: pathXs (endSegs padLeft usableWidth baseY sk)) := by
  unfold endSegs
  by_cases hy : sk.y = baseY
  · rw [if_pos hy]
    simp [pathXs, cmdXs, List.chain'_cons]
    linarith
  · rw [if_neg hy]
    simp [pathXs, cmdXs, List.chain'_cons]
    constructor <;> linarith


theorem buildLinePath_props (padLeft usableWidth baseY : ℚ) (l : List Station)
    (hne : l ≠ [])
    (hchain : List.Chain' (fun a b : Station => a.x + 60 ≤ b.x) l)
    (hhead : ∀ s, l.head? = some s → padLeft + 40 ≤ s.x)
    (hlast : ∀ s, l.getLast? = some s → s.x ≤ padLeft + usableWidth - 40) :
    (buildLinePath padLeft usableWidth baseY l).head?
        = some (PathCmd.move ⟨padLeft, baseY⟩)
    ∧ (∀ cmd ∈ (buildLinePath padLeft usableWidth baseY l).tail, isMove cmd = false)
    ∧ List.Chain' (fun x y => x ≤ y) (pathXs (buildLinePath padLeft usableWidth baseY l))
    ∧ (pathXs (buildLinePath padLeft usableWidth baseY l)).head? = some padLeft
    ∧ (pathXs (buildLinePath padLeft usableWidth baseY l)).getLast?
        = some (padLeft + usableWidth + 40) := by
  cases l with
  | nil => exact absurd rfl hne
  | cons s1 rest =>
      have hs1 : padLeft + 40 ≤ s1.x := hhead s1 rfl
      have hsk : (rest.getLastD s1).x ≤ padLeft + usableWidth - 40 :=
        hlast _ (getLast?_cons_getLastD s1 rest)
      rw [buildLinePath]
      have hxs : pathXs (PathCmd.move ⟨padLeft, baseY⟩ ::
          (firstSegs padLeft baseY s1 ++ midSegs s1 rest ++
            endSegs padLeft usableWidth baseY (rest.getLastD s1)))
          = padLeft :: (pathXs (firstSegs padLeft baseY s1) ++ pathXs (midSegs s1 rest) ++
              pathXs (endSegs padLeft usableWidth baseY (rest.getLastD s1))) := by
        simp [pathXs, cmdXs]
      rw [hxs]
      have hg1 := chain_glue_last
        (firstSegs_chain padLeft baseY s1 hs1)
        (firstSegs_last padLeft baseY padLeft s1)
        (midSegs_chain rest s1 hchain)
        (midSegs_last rest s1)
      have hg2 := chain_glue_last hg1.1 hg1.2
        (endSegs_chain padLeft usableWidth baseY (rest.getLastD s1) hsk)
        (endSegs_last padLeft usableWidth baseY (rest.getLastD s1).x (rest.getLastD s1))
      refine ⟨rfl, ?_, ?_, rfl, ?_⟩
      · intro cmd hcmd
        simp only [List.tail_cons] at hcmd
        rcases List.mem_append.mp hcmd with hcmd1 | hcmd2
        · rcases List.mem_append.mp hcmd1 with hcmd3 | hcmd4
          · exact firstSegs_noMove _ _ _ cmd hcmd3
          · exact midSegs_noMove rest s1 cmd hcmd4
        · exact endSegs_noMove _ _ _ _ cmd hcmd2
      · exact hg2.1
      · exact hg2.2


/-- C6, amended: for every metro line of `computeMetroLayout` with at least
one member station, PROVIDED consecutive member stations are at least 60
x-units apart and the first and last stations keep a 40-unit margin inside
the horizontal span (`160 ≤ x` and `x ≤ width - 120`), the synthesized line
path is continuous (it starts with the single `M` at the left anchor
`(120, baseY)` and no later command starts a new subpath) and its x
coordinates are monotonically non-decreasing, running from `x = 120` out to
`x = width - 40`. -/
theorem computeMetroLayout_line_path (ps : List Entity) (width height : ℚ)
    (c : String) (ld : LineData)
    (hld : (c, ld) ∈ (computeMetroLayout ps width height).lines)
    (hne : ld.stations ≠ [])
    (hchain : List.Chain' (fun a b : Station => a.x + 60 ≤ b.x) ld.stations)
    (hhead : ∀ s, ld.stations.head? = some s → 160 ≤ s.x)
    (hlast : ∀ s, ld.stations.getLast? = some s → s.x ≤ width - 120) :
    ld.path.head? = some (PathCmd.move ⟨120, ld.baseY⟩)
    ∧ (∀ cmd ∈ ld.path.tail, isMove cmd = false)
    ∧ List.Chain' (fun x y => x ≤ y) (pathXs ld.path)
    ∧ (pathXs ld.path).head? = some 120
    ∧ (pathXs ld.path).getLast? = some (width - 40) := by
  have hlines : (computeMetroLayout ps width height).lines
      = buildLineData (resolveOverlaps (mkStations ps width height)) 120 100
          (width - 120 - 80) ((height - 100 - 120) / ((METRO_LINES.length : ℚ) + 1)) := rfl
  rw [hlines] at hld
  unfold buildLineData at hld
  rw [List.mem_map] at hld
  obtain ⟨kv, hkv, heq⟩ := hld
  have hpath : ld.path = buildLinePath 120 (width - 120 - 80) ld.baseY ld.stations := by
    have h2 := congrArg Prod.snd heq
    dsimp only at h2
    rw [← h2]
  rw [hpath]
  have hprops := buildLinePath_props 120 (width - 120 - 80) ld.baseY ld.stations hne hchain
    (fun s hs => by have := hhead s hs; linarith)
    (fun s hs => by have := hlast s hs; linarith)
  obtain ⟨p1, p2, p3, p4, p5⟩ := hprops
  refine ⟨p1, p2, p3, p4, ?_⟩
  rw [p5]
  congr 1
  ring

theorem mkStations_cex : mkStations [eMetaA, eMetaB] 455 620 = [stC1, stC2] := by
  have h1 : parseYear "100" = 100 := by decide
  have h2 : parseYear "400" = 400 := by decide
  norm_num [mkStations, sortByYear, List.insertionSort, List.orderedInsert, byYearLE,
    eMetaA, eMetaB, h1, h2, normalizeYear, getPrimaryLine, firstLineOf, metroKeys, METRO_LINES,
    metroCfg, getPhilosopherLines, stC1, stC2, dedupFirst]


theorem resolve_cex : resolveOverlaps [stC1, stC2] = [stC1, stC2sh] := by
  norm_num [resolveOverlaps, dedupFirst, groupShifted, List.insertionSort, List.orderedInsert,
    byXTagged, stC1, stC2, stC2sh, List.enum, List.enumFrom]

theorem lineStations_cex : lineStationsOf [stC1, stC2sh] "Metaphysics" = [stC1, stC2sh] := by
  norm_num [lineStationsOf, List.insertionSort, List.orderedInsert, byX, stC1, stC2sh]

theorem ldCex_eq :
    ldCex =
      { color := "#8b5cf6", label := "Metaphysics Line", row := 0,
        concept := "Metaphysics", stations := [stC1, stC2sh],
        path := buildLinePath 120 255 150 [stC1, stC2sh], baseY := 150 } := by
  have hres : resolveOverlaps (mkStations [eMetaA, eMetaB] 455 620) = [stC1, stC2sh] := by
    rw [mkStations_cex, resolve_cex]
  simp only [ldCex, metroCex, computeMetroLayout]
  rw [hres]
  norm_num [buildLineData, METRO_LINES, lineStations_cex]


theorem metroCex_find :
    metroCex.lines.find? (fun kv => kv.1 == "Metaphysics") = some ("Metaphysics", ldCex) := rfl

/-- C6, counterexample.  On `[eMetaA, eMetaB]` (years 100 and 400, both on
the Metaphysics line) over a 455 by 620 canvas the two stations land 30
x-units apart, the overlap resolution shifts the second station's y by 25,
and the s-curve the path builder inserts between the two levels starts at
`midX - 30 = 175`, left of the previous station's `x = 190`: the path's x
sequence is not monotonically non-decreasing. -/
theorem computeMetroLayout_line_path_cex :
    ("Metaphysics", ldCex) ∈ metroCex.lines
    ∧ ldCex.stations ≠ []
    ∧ ¬ List.Chain' (fun x y : ℚ => x ≤ y) (pathXs ldCex.path) := by
  refine ⟨List.mem_of_find?_eq_some metroCex_find, ?_, ?_⟩
  · rw [ldCex_eq]
    simp
  · rw [ldCex_eq]
    norm_num [buildLinePath, firstSegs, midSegs, endSegs, pathXs, cmdXs, stC1, stC2sh,
      List.chain'_cons, List.getLastD]


theorem mkStations_wit : mkStations [eMetaC, eMetaD] 455 620 = [stW1, stW2] := by
  have h1 : parseYear "900" = 900 := by decide
  have h2 : parseYear "1500" = 1500 := by decide
  norm_num [mkStations, sortByYear, List.insertionSort, List.orderedInsert, byYearLE,
    eMetaC, eMetaD, h1, h2, normalizeYear, getPrimaryLine, firstLineOf, metroKeys, METRO_LINES,
    metroCfg, getPhilosopherLines, stW1, stW2, dedupFirst]

theorem resolve_wit : resolveOverlaps [stW1, stW2] = [stW1, stW2] := by
  norm_num [resolveOverlaps, dedupFirst, groupShifted, List.insertionSort, List.orderedInsert,
    byXTagged, stW1, stW2, List.enum, List.enumFrom]

theorem lineStations_wit : lineStationsOf [stW1, stW2] "Metaphysics" = [stW1, stW2] := by
  norm_num [lineStationsOf, List.insertionSort, List.orderedInsert, byX, stW1, stW2]

theorem ldWit_eq :
    ldWit =
      { color := "#8b5cf6", label := "Metaphysics Line", row := 0,
        concept := "Metaphysics", stations := [stW1, stW2],
        path := buildLinePath 120 255 150 [stW1, stW2], baseY := 150 } := by
  have hres : resolveOverlaps (mkStations [eMetaC, eMetaD] 455 620) = [stW1, stW2] := by
    rw [mkStations_wit, resolve_wit]
  simp only [ldWit, metroWit, computeMetroLayout]
  rw [hres]
  norm_num [buildLineData, METRO_LINES, lineStations_wit]

theorem metroWit_find :
    metroWit.lines.find? (fun kv => kv.1 == "Metaphysics") = some ("Metaphysics", ldWit) := rfl

theorem computeMetroLayout_line_path_witness :
    (("Metaphysics", ldWit) ∈ metroWit.lines ∧ ldWit.stations ≠ [])
    ∧ List.Chain' (fun x y : ℚ => x ≤ y) (pathXs ldWit.path)
    ∧ (pathXs ldWit.path).getLast? = some (455 - 40) := by
  have hmem : ("Metaphysics", ldWit) ∈ metroWit.lines :=
    List.mem_of_find?_eq_some metroWit_find
  have hst : ldWit.stations = [stW1, stW2] := by rw [ldWit_eq]
  have hprops := computeMetroLayout_line_path [eMetaC, eMetaD] 455 620 "Metaphysics" ldWit hmem
    (by rw [hst]; simp)
    (by rw [hst]; norm_num [List.chain'_cons, stW1, stW2])
    (by
      rw [hst]
      intro s hs
      simp at hs
      subst hs
      norm_num [stW1])
    (by
      rw [hst]
      intro s hs
      simp [List.getLast?] at hs
      subst hs
      norm_num [stW2])
  exact ⟨⟨hmem, by rw [hst]; simp⟩, hprops.2.2.1, hprops.2.2.2.2⟩

end PhilExplorer
